import Mathlib

/-!
Verification of the translation-portal repository.

This file gives a shallow embedding of the extraction, AI-translation merge,
diff and export logic of the Python scripts (scripts/extract_strings.py,
scripts/ai_translate.py, scripts/export_translations.py), and proves or
refutes the specification claims about them.

Modelling conventions:
- A Python dict is an insertion-ordered association list (`pyget`/`pyset`).
- JSON string values are Lean `String`s; a translation entry is a dict from
  field names (text, ai_suggestion, status, ...) to strings.
- The machine-translation provider (translate_text, which wraps the network
  call with retries and returns the translation or None) is a parameter
  `tr : String → Option String`.
- Python text primitives (split, strip, startswith, replace, join) are
  re-implemented on the character list of a `String`, keeping Python
  semantics (for strip/\s the four common whitespace characters are covered).
- hash_string (an 8-character md5 digest) is a parameter
  `hashStr : String → String`; no claim depends on the digest function.
-/

/-- Lookup in a Python dict modelled as an insertion-ordered association
list: value of the first (in Python: the unique) matching key. -/
def pyget {α : Type} : List (String × α) → String → Option α
  | [], _ => none
  | (k', v) :: rest, k => if k' = k then some v else pyget rest k

/-- Assignment `d[k] = v` on a Python dict: update in place if the key
exists, else append at the end (dicts preserve insertion order). -/
def pyset {α : Type} : List (String × α) → String → α → List (String × α)
  | [], k, v => [(k, v)]
  | (k', v') :: rest, k, v =>
      if k' = k then (k, v) :: rest else (k', v') :: pyset rest k v

/-- Python truthiness of an optional string: a missing key and the empty
string are falsy, every other string is truthy. -/
def truthy : Option String → Bool
  | some s => s != ""
  | none => false

/-- One translation entry: a dict of string fields. -/
abbrev EntryDict := List (String × String)

/-- A per-language translation store: dict from identifier to entry. -/
abbrev Store := List (String × EntryDict)

/-- `fieldOf st id k` is `st[id].get(k)` guarded by `id in st`. -/
def fieldOf (st : Store) (id k : String) : Option String :=
  (pyget st id).bind (fun e => pyget e k)

/-! ### Character-level text primitives (Python semantics) -/

/-- Splitting a character list on every occurrence of a separator, keeping
empty pieces: the semantics of Python `str.split(sep)`. -/
def chSplitAux (sep : Char) : List Char → List Char → List (List Char)
  | [], acc => [acc.reverse]
  | c :: rest, acc =>
      if c = sep then acc.reverse :: chSplitAux sep rest []
      else chSplitAux sep rest (c :: acc)

/-- `string_id.split(".")`. -/
def splitDot (s : String) : List String := (chSplitAux '.' s.data []).map String.mk

/-- `content.split("\n")`. -/
def splitLines (s : String) : List String := (chSplitAux '\n' s.data []).map String.mk

/-- Whitespace as in Python `str.strip()` / `\s` (space, tab, newline, CR). -/
def isWs (c : Char) : Bool := c = ' ' || c = '\t' || c = '\n' || c = '\r'

/-- Python `s.strip()`. -/
def pyStrip (s : String) : String :=
  ⟨((s.data.dropWhile isWs).reverse.dropWhile isWs).reverse⟩

/-- Boolean test that one list is an initial segment of another. -/
def leadOf {α : Type} [DecidableEq α] : List α → List α → Bool
  | [], _ => true
  | _ :: _, [] => false
  | a :: as, b :: bs => if a = b then leadOf as bs else false

/-- Python `s.startswith(pre)`. -/
def pyStarts (s pre : String) : Bool := leadOf pre.data s.data

/-- Python `s.replace("/", ".")` (single-character pattern). -/
def pyReplaceSlash (s : String) : String :=
  ⟨s.data.map (fun c => if c = '/' then '.' else c)⟩

/-- Python `sep.join(parts)`. -/
def pyJoin (sep : String) : List String → String
  | [] => ""
  | [x] => x
  | x :: y :: rest => x ++ sep ++ pyJoin sep (y :: rest)

/-! ### Catalog data model (source-strings.json) -/

/-- One record of `sections[name]["strings"]` in source-strings.json:
`{id, en, chars, hash, context?}`. -/
structure CatRecord where
  id : String
  en : String
  chars : Nat
  hash : String
  context : Option String := none
deriving DecidableEq, Repr

/-- One value of `sections[name]` in source-strings.json. -/
structure Section where
  source_file : String := ""
  type : String := ""
  strings : List CatRecord := []
deriving DecidableEq, Repr

/-- The ordered `sections` dict of a catalog. -/
abbrev Sections := List (String × Section)

/-! ### scripts/ai_translate.py — translate_strings / translate_glossary -/

/-- Loop body of `translate_strings` for one source string (fields `id`,
`en` are the only ones read).  Mirrors ai_translate.py lines 57-78:
skip when skip_existing and the entry already has a truthy ai_suggestion;
otherwise call the provider, and on success set `ai_suggestion` (creating
the entry if absent) and set `status = "needs_review"` exactly when the
entry has no truthy `text`. -/
def translateOneString (tr : String → Option String) (skip_existing : Bool)
    (translations : Store) (s : CatRecord) : Store :=
  if skip_existing && truthy (fieldOf translations s.id "ai_suggestion") then
    translations
  else
    match tr s.en with
    | none => translations
    | some result =>
        let e0 := (pyget translations s.id).getD []
        let e1 := pyset e0 "ai_suggestion" result
        let e2 := if truthy (pyget e1 "text") then e1
                  else pyset e1 "status" "needs_review"
        pyset translations s.id e2

/-- `translate_strings(source_strings, translations, target_lang,
skip_existing)` from ai_translate.py: iterate over every string of every
section in order, returning the updated store (the function's numeric
counters and progress printing are irrelevant to the store). -/
def translate_strings (tr : String → Option String) (skip_existing : Bool)
    (sections : Sections) (translations : Store) : Store :=
  sections.foldl
    (fun st sec => sec.2.strings.foldl (translateOneString tr skip_existing) st)
    translations

/-- `n` repeated runs of translate_strings over the same catalog. -/
def translateRuns (tr : String → Option String) (skip_existing : Bool)
    (sections : Sections) : Nat → Store → Store
  | 0, st => st
  | n + 1, st => translateRuns tr skip_existing sections n
      (translate_strings tr skip_existing sections st)

/-- One glossary category of glossary.json: its `terms` list, each term
read through its `en` field. -/
structure GCategory where
  terms : List String := []
deriving DecidableEq, Repr

/-- Loop body of `translate_glossary` for one term (ai_translate.py lines
101-120): always skips a term whose entry already has a truthy
ai_suggestion; otherwise same merge as for strings. -/
def translateOneTerm (tr : String → Option String) (glossary : Store)
    (term : String) : Store :=
  if truthy (fieldOf glossary term "ai_suggestion") then glossary
  else
    match tr term with
    | none => glossary
    | some result =>
        let e0 := (pyget glossary term).getD []
        let e1 := pyset e0 "ai_suggestion" result
        let e2 := if truthy (pyget e1 "text") then e1
                  else pyset e1 "status" "needs_review"
        pyset glossary term e2

/-- `translate_glossary(glossary, translations, target_lang)` acting on the
`translations["glossary"]` sub-dict. -/
def translate_glossary (tr : String → Option String)
    (categories : List (String × GCategory)) (glossary : Store) : Store :=
  categories.foldl (fun acc cat => cat.2.terms.foldl (translateOneTerm tr) acc)
    glossary

/-- The per-language translation file: the `glossary` sub-dict and the
top-level id-keyed entries (the ids produced by extraction always start
with "gear_optimizer." and so never collide with the `_meta`/`glossary`
keys, which justifies keeping them as separate components). -/
structure Translations where
  glossary : Store := []
  entries : Store := []
deriving DecidableEq, Repr

/-- One per-language iteration of `main` in ai_translate.py: glossary terms
are translated first, then the page strings with skip_existing=True; the
result is what gets persisted. -/
def runLanguage (tr : String → Option String)
    (categories : List (String × GCategory)) (sections : Sections)
    (t : Translations) : Translations :=
  { glossary := translate_glossary tr categories t.glossary
    entries := translate_strings tr true sections t.entries }

/-- All identifiers present in the current catalog. -/
def catalogIds (sections : Sections) : List String :=
  sections.flatMap (fun sec => sec.2.strings.map CatRecord.id)

/-! ### scripts/extract_strings.py — extractors and catalog build -/

/-- Filter on a stripped match of the Vue text pattern `>([^<>{}\n]+?)<`
(extract_strings.py lines 57-62): non-empty, longer than one character,
not starting with ':' or '@', and not consisting solely of the characters
of the class `[\d.\-+*/%$#@]`. -/
def vueTextOk (t : String) : Bool :=
  t != "" && t.length > 1 && !pyStarts t ":" && !pyStarts t "@" &&
    !(t.data.all (fun c => c.isDigit || c = '.' || c = '-' || c = '+' ||
      c = '*' || c = '/' || c = '%' || c = '$' || c = '#' || c = '@'))

/-- Filter on a stripped attribute-pattern match (placeholder/title/
aria-label/label, extract_strings.py lines 71-75). -/
def vueAttrOk (t : String) : Bool :=
  t != "" && !pyStarts t ":" && !pyStarts t "\x7b"

/-- `extract_vue_strings` (extract_strings.py lines 34-77), taking the raw
regex matches of the template text pattern and of the attribute patterns as
inputs (the regex scan itself is outside the model).  Each match is
stripped and filtered, and the collected list goes through
`list(set(strings))`: CPython enumerates the set in an order determined by
the randomized string hash, modelled by the parameter `setList`, which may
be any function; a run of the interpreter corresponds to some `setList`
whose output is a permutation of the distinct collected strings. -/
def extract_vue_strings (setList : List String → List String)
    (textMatches attrMatches : List String) : List String :=
  setList (((textMatches.map pyStrip).filter vueTextOk) ++
    ((attrMatches.map pyStrip).filter vueAttrOk))

/-- One possible set-iteration order: first occurrences in insertion order. -/
def setOrderA (l : List String) : List String := l.dedup

/-- Another possible set-iteration order: the reverse of `setOrderA`.  Both
are enumerations of the same distinct elements, as CPython may produce
under two different hash seeds. -/
def setOrderB (l : List String) : List String := l.dedup.reverse

/-- The Vue branch of `extract_gear_optimizer` (lines 191-198): enumerate
the extracted strings of one section, assigning
`id = section_name.replace("/", ".") + "." + str(i)`. -/
def buildVueRecs (section_name : String) (hashStr : String → String) :
    Nat → List String → List CatRecord
  | _, [] => []
  | i, text :: rest =>
      { id := pyReplaceSlash section_name ++ "." ++ toString i
        en := text
        chars := text.length
        hash := hashStr text } :: buildVueRecs section_name hashStr (i + 1) rest

/-- The `strings` list of one Vue section in the built catalog. -/
def buildVueSection (section_name : String) (hashStr : String → String)
    (strings : List String) : List CatRecord :=
  buildVueRecs section_name hashStr 0 strings

/-- Test for the list-item pattern `^\d+\.\s` (extract_strings.py line 107). -/
def mdIsNumbered (s : String) : Bool :=
  let ds := s.data.takeWhile Char.isDigit
  !ds.isEmpty &&
    (match s.data.drop ds.length with
     | '.' :: c :: _ => isWs c
     | _ => false)

/-- `re.sub(r'^#+\s*', '', stripped)`: strip the leading hash marks and the
following whitespace of a header line. -/
def mdHeaderText (s : String) : String :=
  ⟨(s.data.dropWhile (fun c => c = '#')).dropWhile isWs⟩

/-- `re.sub(r'^[-\*\d\.]+\s*', '', stripped)`: strip the leading bullet or
number of a list-item line. -/
def mdItemText (s : String) : String :=
  ⟨(s.data.dropWhile (fun c => c = '-' || c = '*' || c = '.' || c.isDigit)).dropWhile
    isWs⟩

/-- State of the line scan of `extract_markdown_strings`: the paragraph
block being accumulated and the `(str_type, text)` pairs emitted so far. -/
structure MdState where
  block : List String := []
  out : List (String × String) := []
deriving DecidableEq, Repr

/-- One iteration of the line loop of `extract_markdown_strings`
(extract_strings.py lines 97-122), in the source's branch order: header,
list item, paragraph accumulation, paragraph flush on an empty line
(emitted only when the joined block is longer than 10 characters). -/
def mdLine (st : MdState) (line : String) : MdState :=
  let stripped := pyStrip line
  if pyStarts stripped "#" then
    let h := mdHeaderText stripped
    if h != "" then { st with out := st.out ++ [("header", h)] } else st
  else if pyStarts stripped "- " || pyStarts stripped "* " || mdIsNumbered stripped then
    let t := mdItemText stripped
    if t != "" then { st with out := st.out ++ [("list_item", t)] } else st
  else if stripped != "" && !pyStarts stripped "```" && !pyStarts stripped "|" then
    { st with block := st.block ++ [stripped] }
  else if stripped == "" && !st.block.isEmpty then
    let para := pyJoin " " st.block
    { block := []
      out := if para != "" && para.length > 10 then st.out ++ [("paragraph", para)]
             else st.out }
  else st

/-- `extract_markdown_strings` (extract_strings.py lines 79-130): scan the
lines, then flush the last unterminated paragraph block. -/
def extract_markdown_strings (content : String) : List (String × String) :=
  let st := (splitLines content).foldl mdLine {}
  if !st.block.isEmpty then
    let para := pyJoin " " st.block
    if para != "" && para.length > 10 then st.out ++ [("paragraph", para)]
    else st.out
  else st.out

/-- The markdown branch of `extract_gear_optimizer` (lines 218-226):
enumerate the `(str_type, text)` pairs of one section, assigning
`id = section_name.replace("/", ".") + "." + str_type + "." + str(i)` and
recording the str_type as `context`. -/
def buildMdRecs (section_name : String) (hashStr : String → String) :
    Nat → List (String × String) → List CatRecord
  | _, [] => []
  | i, (str_type, text) :: rest =>
      { id := pyReplaceSlash section_name ++ "." ++ str_type ++ "." ++ toString i
        en := text
        chars := text.length
        hash := hashStr text
        context := some str_type } :: buildMdRecs section_name hashStr (i + 1) rest

/-- The `strings` list of one markdown section in the built catalog. -/
def buildMdSection (section_name : String) (hashStr : String → String)
    (pairs : List (String × String)) : List CatRecord :=
  buildMdRecs section_name hashStr 0 pairs

/-! ### Diff Engine

The `--sync` branch of `main` in extract_strings.py (lines 289-304) locates
the previous snapshot but its diff computation is an unimplemented TODO, so
the classification below is modelled from the spec. -/

/-- A catalog generation reduced to what the Diff Engine reads:
identifier → fingerprint. -/
abbrev FpCatalog := List (String × String)

/-- The four classes of the diff classification. -/
structure DiffResult where
  added : List String
  removed : List String
  changed : List String
  unchanged : List String
deriving DecidableEq, Repr

/-- Modelled from the spec: the Diff Engine contract of section 4.3 (the
code under scripts/ only has a `TODO: Implement diff logic` at the place
the claim cites).  Given the previous and the current catalog generation it
classifies identifiers: `added` in current only, `removed` in previous
only, `changed` in both with differing fingerprints, `unchanged` in both
with equal fingerprints. -/
def diffCatalogs (prev cur : FpCatalog) : DiffResult where
  added := (cur.filter (fun p => (pyget prev p.1).isNone)).map Prod.fst
  removed := (prev.filter (fun p => (pyget cur p.1).isNone)).map Prod.fst
  changed := (cur.filter (fun p =>
    match pyget prev p.1 with
    | some f => f != p.2
    | none => false)).map Prod.fst
  unchanged := (cur.filter (fun p =>
    match pyget prev p.1 with
    | some f => f == p.2
    | none => false)).map Prod.fst

/-- Membership of an identifier in exactly one of the four diff classes. -/
def inExactlyOne (D : DiffResult) (id : String) : Prop :=
  (id ∈ D.added ∧ id ∉ D.removed ∧ id ∉ D.changed ∧ id ∉ D.unchanged) ∨
  (id ∉ D.added ∧ id ∈ D.removed ∧ id ∉ D.changed ∧ id ∉ D.unchanged) ∨
  (id ∉ D.added ∧ id ∉ D.removed ∧ id ∈ D.changed ∧ id ∉ D.unchanged) ∨
  (id ∉ D.added ∧ id ∉ D.removed ∧ id ∉ D.changed ∧ id ∈ D.unchanged)

/-! ### scripts/export_translations.py — export_gear_optimizer -/

/-- The context tags excluded from the category position of a simplified
export key (export_translations.py line 78). -/
def contextTags : List String := ["header", "paragraph", "list_item"]

/-- Key simplification on the already split identifier (lines 77-82):
with at least 3 segments, `category` is the second-to-last segment
(`keys[-2]`, i.e. reversed index 1) unless it is a context tag, in which
case the third-to-last (`keys[-3]`); the simplified key is
`category + "." + keys[-1]`, re-split, which is the two-element list
because the split segments contain no dot.  With fewer than 3 segments the
split identifier is used verbatim. -/
def keyPartsOfList (keys : List String) : List String :=
  if 3 ≤ keys.length then
    let r := keys.reverse
    let category := if contextTags.contains (r.getD 1 "") then r.getD 2 ""
                    else r.getD 1 ""
    [category, r.getD 0 ""]
  else keys

/-- The simplified key path of one identifier: `string_id.split(".")`
simplified as above. -/
def keyParts (string_id : String) : List String := keyPartsOfList (splitDot string_id)

/-- The export key rule as worded by the spec (sections 4.5 and 8): when
the id has at least three dot-separated segments, take the last two
meaningful path segments — the second-to-last segment, or the third-to-last
when the second-to-last is a context tag, followed by the final index —
else use the id verbatim.  Stated on the split segment list. -/
def specKeyOfList (keys : List String) : List String :=
  match keys.reverse with
  | idx :: catg :: third :: _ =>
      if contextTags.contains catg then [third, idx] else [catg, idx]
  | _ => keys

/-- The spec's export key rule on an identifier. -/
def specSimplifiedKey (string_id : String) : List String :=
  specKeyOfList (splitDot string_id)

/-- Threshold test of export_translations.py lines 70 and 111:
`trans_entry.get("status") in ["approved", "submitted", "draft"]`. -/
def statusQualifies (entry : EntryDict) : Bool :=
  match pyget entry "status" with
  | some s => ["approved", "submitted", "draft"].contains s
  | none => false

/-- The nested vue-i18n output being built: a JSON tree of string leaves
and insertion-ordered objects. -/
inductive NJson where
  | str : String → NJson
  | obj : List (String × NJson) → NJson
deriving Repr

/-- Writing a value at a key path into the nested output (lines 84-91):
walk the parts before the last, creating empty dicts for missing keys; the
final assignment overwrites whatever is at the last part.  Descending into
a string raises a TypeError in Python, modelled as `none`. -/
def insertPath : NJson → List String → String → Option NJson
  | NJson.obj m, [k], v => some (NJson.obj (pyset m k (NJson.str v)))
  | NJson.obj m, k :: k2 :: rest, v =>
      match insertPath ((pyget m k).getD (NJson.obj [])) (k2 :: rest) v with
      | some c => some (NJson.obj (pyset m k c))
      | none => none
  | _, _, _ => none

/-- Reading the string value at a key path of the nested output. -/
def nlookup : NJson → List String → Option String
  | NJson.str s, [] => some s
  | NJson.obj m, k :: rest =>
      match pyget m k with
      | some c => nlookup c rest
      | none => none
  | NJson.str _, _ :: _ => none
  | NJson.obj _, [] => none

/-- Folding a list of `(path, value)` writes into the nested output. -/
def foldInsert (j : NJson) (ws : List (List String × String)) : Option NJson :=
  ws.foldl (fun acc w => acc.bind (fun t => insertPath t w.1 w.2)) (some j)

/-- The `(path, value)` write performed by one iteration of the
nested-output loop of `export_gear_optimizer` (lines 63-92): if the store
has an entry for the string's id whose status passes the threshold, append
a write of `trans_entry.get("text", "")` at the simplified key path. -/
def exportStringWrite (translations : Store)
    (acc : List (List String × String)) (s : CatRecord) :
    List (List String × String) :=
  match pyget translations s.id with
  | some e =>
      if statusQualifies e then acc ++ [(keyParts s.id, (pyget e "text").getD "")]
      else acc
  | none => acc

/-- The ordered `(path, value)` writes performed by the nested-output loop
of `export_gear_optimizer` (lines 59-92): for every string of every
section whose name starts with "gear_optimizer/", in order, the write of
`exportStringWrite`. -/
def exportWrites (source_sections : Sections) (translations : Store) :
    List (List String × String) :=
  source_sections.foldl
    (fun acc sec =>
      if pyStarts sec.1 "gear_optimizer/" then
        sec.2.strings.foldl (exportStringWrite translations) acc
      else acc)
    []

/-- The nested vue-i18n output of `export_gear_optimizer` (the flat
diagnostic sibling and the file writing are not modelled; `none` is the
TypeError crash of a write through a string leaf). -/
def export_gear_optimizer (source_sections : Sections) (translations : Store) :
    Option NJson :=
  foldInsert (NJson.obj []) (exportWrites source_sections translations)

/-- Whether the store has a threshold-passing entry for a given id. -/
def entryQualifies (translations : Store) (id : String) : Bool :=
  match pyget translations id with
  | some e => statusQualifies e
  | none => false

/-- The exported value for a qualifying id: `trans_entry.get("text", "")`. -/
def textAt (translations : Store) (id : String) : String :=
  (fieldOf translations id "text").getD ""

/-- Incomparability of two key paths: neither is an initial segment of the
other. -/
def incompB (p q : List String) : Bool := !leadOf p q && !leadOf q p

/-- Pairwise incomparability of a list of key paths. -/
def pairwiseIncompB : List (List String) → Bool
  | [] => true
  | p :: rest => rest.all (fun q => incompB p q) && pairwiseIncompB rest

/-! ### Association-list lemmas -/

theorem pyget_pyset_self {α : Type} (d : List (String × α)) (k : String) (v : α) :
    pyget (pyset d k v) k = some v := by
  induction d with
  | nil => simp [pyget, pyset]
  | cons hd tl ih =>
    obtain ⟨k', v'⟩ := hd
    by_cases h : k' = k
    · simp [pyget, pyset, h]
    · simp [pyget, pyset, h, ih]

theorem pyget_pyset_other {α : Type} (d : List (String × α)) (k k' : String) (v : α)
    (h : k' ≠ k) : pyget (pyset d k v) k' = pyget d k' := by
  induction d with
  | nil =>
    simp only [pyset, pyget, if_neg (fun hh : k = k' => h hh.symm)]
  | cons hd tl ih =>
    obtain ⟨k₀, v₀⟩ := hd
    by_cases h₀ : k₀ = k
    · subst h₀
      simp [pyget, pyset, if_neg (fun hh : k₀ = k' => h hh.symm)]
    · by_cases h₁ : k₀ = k'
      · subst h₁
        simp [pyget, pyset, h₀]
      · simp [pyget, pyset, h₀, h₁, ih]

theorem fieldOf_pyset_self (st : Store) (id k : String) (e : EntryDict) :
    fieldOf (pyset st id e) id k = pyget e k := by
  simp [fieldOf, pyget_pyset_self]

theorem fieldOf_pyset_other (st : Store) (id id' k : String) (e : EntryDict)
    (h : id ≠ id') : fieldOf (pyset st id' e) id k = fieldOf st id k := by
  simp [fieldOf, pyget_pyset_other st id' id e h]

/-! ### Fold invariance helpers -/

theorem foldlInv {α β : Type} {P : β → Prop} {f : β → α → β}
    (h : ∀ b a, P b → P (f b a)) :
    ∀ (l : List α) (b : β), P b → P (l.foldl f b) := by
  intro l
  induction l with
  | nil => intro b hb; simpa using hb
  | cons a l ih => intro b hb; exact ih _ (h b a hb)

theorem foldlInvMem {α β : Type} {P : β → Prop} {f : β → α → β} :
    ∀ (l : List α), (∀ b a, a ∈ l → P b → P (f b a)) →
      ∀ (b : β), P b → P (l.foldl f b) := by
  intro l
  induction l with
  | nil => intro _ b hb; simpa using hb
  | cons a l ih =>
    intro h b hb
    exact ih (fun b' a' ha' hb' => h b' a' (List.mem_cons_of_mem a ha') hb') _
      (h b a (List.mem_cons_self a l) hb)

/-- Lifting a per-string invariant through `translate_strings`. -/
theorem translate_strings_inv {P : Store → Prop}
    (tr : String → Option String) (skip_existing : Bool) (sections : Sections)
    (h : ∀ st s, P st → P (translateOneString tr skip_existing st s))
    (st : Store) (hP : P st) :
    P (translate_strings tr skip_existing sections st) := by
  unfold translate_strings
  exact foldlInv (fun b sec hb => foldlInv (fun b' s hb' => h b' s hb') _ b hb)
    sections st hP

/-- Lifting a per-string invariant that may depend on membership of the
string in the catalog. -/
theorem translate_strings_inv_mem {P : Store → Prop}
    (tr : String → Option String) (skip_existing : Bool) (sections : Sections)
    (h : ∀ st sec s, sec ∈ sections → s ∈ sec.2.strings →
      P st → P (translateOneString tr skip_existing st s))
    (st : Store) (hP : P st) :
    P (translate_strings tr skip_existing sections st) := by
  unfold translate_strings
  exact foldlInvMem sections
    (fun b sec hsec hb =>
      foldlInvMem sec.2.strings (fun b' s hs hb' => h b' sec s hsec hs hb') b hb)
    st hP

/-! ### Per-string behaviour of the merge step -/

theorem pyget_getD_field (st : Store) (id k : String) :
    pyget ((pyget st id).getD []) k = fieldOf st id k := by
  cases h : pyget st id with
  | none => simp [fieldOf, h, pyget]
  | some e => simp [fieldOf, h]

/-- The merge step never writes any field other than `ai_suggestion` and
`status`. -/
theorem translateOne_field_frame (tr : String → Option String)
    (skip_existing : Bool) (st : Store) (s : CatRecord) (id k : String)
    (hk1 : k ≠ "ai_suggestion") (hk2 : k ≠ "status") :
    fieldOf (translateOneString tr skip_existing st s) id k = fieldOf st id k := by
  unfold translateOneString
  split
  · rfl
  · split
    · rfl
    · rename_i result _
      simp only []
      by_cases hid : id = s.id
      · subst hid
        rw [fieldOf_pyset_self]
        split
        · rw [pyget_pyset_other _ _ _ _ hk1, pyget_getD_field]
        · rw [pyget_pyset_other _ _ _ _ hk2, pyget_pyset_other _ _ _ _ hk1,
            pyget_getD_field]
      · exact fieldOf_pyset_other st id s.id k _ hid

/-- After the merge step, the `status` field of any entry is either exactly
what it was, or the entry had no truthy `text` and the status is now
`needs_review`. -/
theorem translateOne_status (tr : String → Option String) (skip_existing : Bool)
    (st : Store) (s : CatRecord) (id : String) :
    fieldOf (translateOneString tr skip_existing st s) id "status" =
      fieldOf st id "status" ∨
    (truthy (fieldOf st id "text") = false ∧
      fieldOf (translateOneString tr skip_existing st s) id "status" =
        some "needs_review") := by
  unfold translateOneString
  split
  · exact Or.inl rfl
  · split
    · exact Or.inl rfl
    · rename_i result _
      simp only []
      by_cases hid : id = s.id
      · subst hid
        rw [fieldOf_pyset_self]
        split
        · rename_i htext
          refine Or.inl ?_
          rw [pyget_pyset_other _ _ _ _ (by decide : "status" ≠ "ai_suggestion"),
            pyget_getD_field]
        · rename_i htext
          refine Or.inr ⟨?_, ?_⟩
          · rw [pyget_pyset_other _ _ _ _
              (by decide : "text" ≠ "ai_suggestion"), pyget_getD_field] at htext
            simpa using htext
          · rw [pyget_pyset_self]
      · exact Or.inl (fieldOf_pyset_other st id s.id _ _ hid)

/-- The merge step leaves every identifier other than the processed one
untouched. -/
theorem translateOne_other_id (tr : String → Option String)
    (skip_existing : Bool) (st : Store) (s : CatRecord) (id : String)
    (h : id ≠ s.id) :
    pyget (translateOneString tr skip_existing st s) id = pyget st id := by
  unfold translateOneString
  split
  · rfl
  · split
    · rfl
    · simp only []
      exact pyget_pyset_other st s.id id _ h

/-- With skip_existing, the merge step leaves an entry that already has a
truthy ai_suggestion exactly as it is. -/
theorem translateOne_keep (tr : String → Option String) (st : Store)
    (s : CatRecord) (id : String) (e : EntryDict)
    (h : pyget st id = some e) (hai : truthy (pyget e "ai_suggestion") = true) :
    pyget (translateOneString tr true st s) id = some e := by
  by_cases hid : id = s.id
  · subst hid
    have hc : (true && truthy (fieldOf st s.id "ai_suggestion")) = true := by
      simp [fieldOf, h, hai]
    unfold translateOneString
    rw [if_pos hc]
    exact h
  · rw [translateOne_other_id tr true st s id hid]
    exact h

/-- The glossary merge step leaves an entry that already has a truthy
ai_suggestion exactly as it is. -/
theorem translateTerm_keep (tr : String → Option String) (g : Store)
    (term term' : String) (e : EntryDict)
    (h : pyget g term = some e) (hai : truthy (pyget e "ai_suggestion") = true) :
    pyget (translateOneTerm tr g term') term = some e := by
  by_cases hid : term = term'
  · subst hid
    have hc : truthy (fieldOf g term "ai_suggestion") = true := by
      simp [fieldOf, h, hai]
    unfold translateOneTerm
    rw [if_pos hc]
    exact h
  · unfold translateOneTerm
    split
    · exact h
    · split
      · exact h
      · simp only []
        rw [pyget_pyset_other g term' term _ hid]
        exact h

/-! ### Whole-run behaviour of translate_strings / translate_glossary -/

/-- A whole `translate_strings` run never changes any `text` field. -/
theorem translate_strings_text (tr : String → Option String)
    (skip_existing : Bool) (sections : Sections) (st : Store) (id : String) :
    fieldOf (translate_strings tr skip_existing sections st) id "text" =
      fieldOf st id "text" := by
  exact translate_strings_inv tr skip_existing sections
    (P := fun st' => fieldOf st' id "text" = fieldOf st id "text")
    (fun st' s hP => by
      show fieldOf (translateOneString tr skip_existing st' s) id "text" =
        fieldOf st id "text"
      rw [translateOne_field_frame tr skip_existing st' s id "text"
        (by decide) (by decide)]
      exact hP)
    st rfl

/-- A whole `translate_strings` run either leaves the `status` of an entry
exactly as it was, or the entry had no truthy `text` before the run and its
status afterwards is `needs_review`. -/
theorem translate_strings_status (tr : String → Option String)
    (skip_existing : Bool) (sections : Sections) (st : Store) (id : String) :
    fieldOf (translate_strings tr skip_existing sections st) id "status" =
      fieldOf st id "status" ∨
    (truthy (fieldOf st id "text") = false ∧
      fieldOf (translate_strings tr skip_existing sections st) id "status" =
        some "needs_review") := by
  have h := translate_strings_inv tr skip_existing sections
    (P := fun st' => fieldOf st' id "text" = fieldOf st id "text" ∧
      (fieldOf st' id "status" = fieldOf st id "status" ∨
        (truthy (fieldOf st id "text") = false ∧
          fieldOf st' id "status" = some "needs_review")))
    (fun st' s hP => by
      obtain ⟨hP1, hP2⟩ := hP
      refine ⟨?_, ?_⟩
      · show fieldOf (translateOneString tr skip_existing st' s) id "text" =
          fieldOf st id "text"
        rw [translateOne_field_frame tr skip_existing st' s id "text"
          (by decide) (by decide)]
        exact hP1
      · show fieldOf (translateOneString tr skip_existing st' s) id "status" =
            fieldOf st id "status" ∨ _
        rcases translateOne_status tr skip_existing st' s id with h1 | ⟨h2, h3⟩
        · rw [h1]; exact hP2
        · rw [hP1] at h2
          exact Or.inr ⟨h2, h3⟩)
    st ⟨rfl, Or.inl rfl⟩
  exact h.2

/-- A whole `translate_strings` run does not touch any field other than
`ai_suggestion` of an entry whose `text` is truthy. -/
theorem translate_strings_frame_of_text (tr : String → Option String)
    (skip_existing : Bool) (sections : Sections) (st : Store) (id : String)
    (h : truthy (fieldOf st id "text") = true) (k : String)
    (hk : k ≠ "ai_suggestion") :
    fieldOf (translate_strings tr skip_existing sections st) id k =
      fieldOf st id k := by
  have hall := translate_strings_inv tr skip_existing sections
    (P := fun st' => ∀ k', k' ≠ "ai_suggestion" →
      fieldOf st' id k' = fieldOf st id k')
    (fun st' s hP => by
      intro k' hk'
      show fieldOf (translateOneString tr skip_existing st' s) id k' =
        fieldOf st id k'
      by_cases hks : k' = "status"
      · subst hks
        rcases translateOne_status tr skip_existing st' s id with h1 | ⟨h2, _⟩
        · rw [h1]; exact hP "status" hk'
        · rw [hP "text" (by decide)] at h2
          rw [h] at h2
          cases h2
      · rw [translateOne_field_frame tr skip_existing st' s id k' hk' hks]
        exact hP k' hk')
    st (fun _ _ => rfl)
  exact hall k hk

/-- Lifting a per-term invariant through `translate_glossary`. -/
theorem translate_glossary_inv {P : Store → Prop}
    (tr : String → Option String) (categories : List (String × GCategory))
    (h : ∀ g term, P g → P (translateOneTerm tr g term))
    (g : Store) (hP : P g) :
    P (translate_glossary tr categories g) := by
  unfold translate_glossary
  exact foldlInv (fun b cat hb => foldlInv (fun b' t hb' => h b' t hb') _ b hb)
    categories g hP

/-- A `translate_strings` run leaves every identifier that does not occur in
the catalog exactly as it is. -/
theorem translate_strings_absent (tr : String → Option String)
    (skip_existing : Bool) (sections : Sections) (st : Store) (id : String)
    (h : id ∉ catalogIds sections) :
    pyget (translate_strings tr skip_existing sections st) id = pyget st id := by
  refine translate_strings_inv_mem tr skip_existing sections
    (P := fun st' => pyget st' id = pyget st id) ?_ st rfl
  intro st' sec s hsec hs hP
  show pyget (translateOneString tr skip_existing st' s) id = pyget st id
  have hne : id ≠ s.id := by
    intro hcontra
    exact h (by
      unfold catalogIds
      exact List.mem_flatMap.mpr ⟨sec, hsec, List.mem_map.mpr ⟨s, hs, hcontra.symm⟩⟩)
  rw [translateOne_other_id tr skip_existing st' s id hne]
  exact hP

/-! ### Claims C1, C2, C7, C10 -/

/-- Claim C1: for every translation entry whose `text` field is non-empty,
a translation run (and any number of repeated runs) updates only the
`ai_suggestion` field: `text` and `status` — indeed every field other than
`ai_suggestion` — are exactly the same after the runs as before. -/
theorem c1_translate_runs_touch_only_ai_suggestion
    (tr : String → Option String) (skip_existing : Bool) (sections : Sections)
    (st : Store) (id : String) (n : Nat)
    (h : truthy (fieldOf st id "text") = true) :
    fieldOf (translateRuns tr skip_existing sections n st) id "text" =
      fieldOf st id "text" ∧
    fieldOf (translateRuns tr skip_existing sections n st) id "status" =
      fieldOf st id "status" ∧
    ∀ k, k ≠ "ai_suggestion" →
      fieldOf (translateRuns tr skip_existing sections n st) id k =
        fieldOf st id k := by
  have haux : ∀ (m : Nat) (st' : Store),
      truthy (fieldOf st' id "text") = true →
      ∀ k, k ≠ "ai_suggestion" →
        fieldOf (translateRuns tr skip_existing sections m st') id k =
          fieldOf st' id k := by
    intro m
    induction m with
    | zero => intro st' _ k _; rfl
    | succ m ih =>
      intro st' h' k hk
      show fieldOf (translateRuns tr skip_existing sections m
        (translate_strings tr skip_existing sections st')) id k = fieldOf st' id k
      have htext' : truthy (fieldOf
          (translate_strings tr skip_existing sections st') id "text") = true := by
        rw [translate_strings_text]; exact h'
      rw [ih _ htext' k hk]
      exact translate_strings_frame_of_text tr skip_existing sections st' id h' k hk
  exact ⟨haux n st h "text" (by decide), haux n st h "status" (by decide),
    haux n st h⟩

/-- Witness for C1 at a concrete store, catalog, provider, and three
repeated runs. -/
theorem c1_witness :
    truthy (fieldOf [("gear_optimizer.vue.x.Y.0",
        [("text", "공격"), ("status", "approved")])]
      "gear_optimizer.vue.x.Y.0" "text") = true ∧
    (fieldOf (translateRuns (fun e => some (e ++ "!")) true
        [("gear_optimizer/vue/x/Y",
          { strings := [⟨"gear_optimizer.vue.x.Y.0", "Attack", 6, "h6", none⟩] })] 3
        [("gear_optimizer.vue.x.Y.0", [("text", "공격"), ("status", "approved")])])
        "gear_optimizer.vue.x.Y.0" "text" =
      fieldOf [("gear_optimizer.vue.x.Y.0",
        [("text", "공격"), ("status", "approved")])]
        "gear_optimizer.vue.x.Y.0" "text" ∧
    fieldOf (translateRuns (fun e => some (e ++ "!")) true
        [("gear_optimizer/vue/x/Y",
          { strings := [⟨"gear_optimizer.vue.x.Y.0", "Attack", 6, "h6", none⟩] })] 3
        [("gear_optimizer.vue.x.Y.0", [("text", "공격"), ("status", "approved")])])
        "gear_optimizer.vue.x.Y.0" "status" =
      fieldOf [("gear_optimizer.vue.x.Y.0",
        [("text", "공격"), ("status", "approved")])]
        "gear_optimizer.vue.x.Y.0" "status" ∧
    ∀ k, k ≠ "ai_suggestion" →
      fieldOf (translateRuns (fun e => some (e ++ "!")) true
          [("gear_optimizer/vue/x/Y",
            { strings := [⟨"gear_optimizer.vue.x.Y.0", "Attack", 6, "h6", none⟩] })] 3
          [("gear_optimizer.vue.x.Y.0", [("text", "공격"), ("status", "approved")])])
          "gear_optimizer.vue.x.Y.0" k =
        fieldOf [("gear_optimizer.vue.x.Y.0",
          [("text", "공격"), ("status", "approved")])]
          "gear_optimizer.vue.x.Y.0" k) :=
  ⟨by decide, c1_translate_runs_touch_only_ai_suggestion _ _ _ _ _ _ (by decide)⟩

/-- Claim C2 counterexample: an entry whose current status is `draft` (with
no stored `text`) receives a machine translation result, and the automated
merge overwrites its status with `needs_review` — the code gates the status
write on emptiness of `text`, not on the current status. -/
theorem c2_counterexample :
    fieldOf [("gear_optimizer.vue.x.Y.0", [("status", "draft")])]
      "gear_optimizer.vue.x.Y.0" "status" = some "draft" ∧
    fieldOf (translate_strings (fun _ => some "Bonjour") true
        [("gear_optimizer/vue/x/Y",
          { strings := [⟨"gear_optimizer.vue.x.Y.0", "Hello", 5, "h5", none⟩] })]
        [("gear_optimizer.vue.x.Y.0", [("status", "draft")])])
      "gear_optimizer.vue.x.Y.0" "status" = some "needs_review" := by
  exact ⟨rfl, by decide⟩

/-- Claim C2 as amended: the automated merge sets `status = needs_review`
exactly when the entry's `text` is empty or absent, regardless of its
current status; whenever the entry's `text` is non-empty the merge never
changes `status` (in particular it never downgrades `submitted` or
`approved` entries that carry a translation). -/
theorem c2_amended_status_gated_by_text (tr : String → Option String)
    (skip_existing : Bool) (sections : Sections) (st : Store) (id : String) :
    (truthy (fieldOf st id "text") = true →
      fieldOf (translate_strings tr skip_existing sections st) id "status" =
        fieldOf st id "status") ∧
    (fieldOf (translate_strings tr skip_existing sections st) id "status" ≠
        fieldOf st id "status" →
      truthy (fieldOf st id "text") = false ∧
      fieldOf (translate_strings tr skip_existing sections st) id "status" =
        some "needs_review") := by
  constructor
  · intro h
    exact translate_strings_frame_of_text tr skip_existing sections st id h
      "status" (by decide)
  · intro hne
    rcases translate_strings_status tr skip_existing sections st id with h1 | h2
    · exact absurd h1 hne
    · exact h2

/-- Witness for the amended C2 at a concrete input where the status does
change. -/
theorem c2_amended_witness :
    truthy (fieldOf [("gear_optimizer.vue.x.Y.0", [("status", "draft")])]
      "gear_optimizer.vue.x.Y.0" "text") = false ∧
    fieldOf (translate_strings (fun _ => some "Bonjour") true
        [("gear_optimizer/vue/x/Y",
          { strings := [⟨"gear_optimizer.vue.x.Y.0", "Hello", 5, "h5", none⟩] })]
        [("gear_optimizer.vue.x.Y.0", [("status", "draft")])])
      "gear_optimizer.vue.x.Y.0" "status" = some "needs_review" :=
  (c2_amended_status_gated_by_text (fun _ => some "Bonjour") true
    [("gear_optimizer/vue/x/Y",
      { strings := [⟨"gear_optimizer.vue.x.Y.0", "Hello", 5, "h5", none⟩] })]
    [("gear_optimizer.vue.x.Y.0", [("status", "draft")])]
    "gear_optimizer.vue.x.Y.0").2 (by decide)

/-- Claim C10: with skip_existing enabled, a translation run leaves every
entry that already has a truthy ai_suggestion completely unchanged (its
status is not touched even when `text` is empty), and likewise for glossary
terms with an existing suggestion. -/
theorem c10_skip_existing_entry_unchanged (tr : String → Option String)
    (sections : Sections) (categories : List (String × GCategory))
    (st g : Store) (id term : String) (e te : EntryDict)
    (h1 : pyget st id = some e) (h2 : truthy (pyget e "ai_suggestion") = true)
    (h3 : pyget g term = some te) (h4 : truthy (pyget te "ai_suggestion") = true) :
    pyget (translate_strings tr true sections st) id = some e ∧
    pyget (translate_glossary tr categories g) term = some te := by
  constructor
  · exact translate_strings_inv tr true sections
      (P := fun st' => pyget st' id = some e)
      (fun st' s hP => translateOne_keep tr st' s id e hP h2) st h1
  · exact translate_glossary_inv tr categories
      (P := fun g' => pyget g' term = some te)
      (fun g' t hP => translateTerm_keep tr g' term t te hP h4) g h3

/-- Witness for C10 at a concrete store with an untranslated entry that
already carries a suggestion, and a glossary term likewise. -/
theorem c10_witness :
    pyget [("gear_optimizer.vue.x.Y.0",
        [("ai_suggestion", "old"), ("status", "untranslated")])]
      "gear_optimizer.vue.x.Y.0" =
        some [("ai_suggestion", "old"), ("status", "untranslated")] ∧
    truthy (pyget [("ai_suggestion", "old"), ("status", "untranslated")]
      "ai_suggestion") = true ∧
    (pyget (translate_strings (fun _ => some "new") true
        [("gear_optimizer/vue/x/Y",
          { strings := [⟨"gear_optimizer.vue.x.Y.0", "Attack", 6, "h6", none⟩] })]
        [("gear_optimizer.vue.x.Y.0",
          [("ai_suggestion", "old"), ("status", "untranslated")])])
      "gear_optimizer.vue.x.Y.0" =
        some [("ai_suggestion", "old"), ("status", "untranslated")] ∧
    pyget (translate_glossary (fun _ => some "new")
        [("stats", { terms := ["Attack"] })]
        [("Attack", [("ai_suggestion", "공격")])]) "Attack" =
      some [("ai_suggestion", "공격")]) :=
  ⟨by decide, by decide,
    c10_skip_existing_entry_unchanged (fun _ => some "new")
      [("gear_optimizer/vue/x/Y",
        { strings := [⟨"gear_optimizer.vue.x.Y.0", "Attack", 6, "h6", none⟩] })]
      [("stats", { terms := ["Attack"] })]
      [("gear_optimizer.vue.x.Y.0",
        [("ai_suggestion", "old"), ("status", "untranslated")])]
      [("Attack", [("ai_suggestion", "공격")])]
      "gear_optimizer.vue.x.Y.0" "Attack" _ _
      (by decide) (by decide) (by decide) (by decide)⟩

/-- Claim C7 counterexample: an approved entry whose identifier is absent
from the current catalog survives a full per-language run with all its data,
but no `orphaned` flag of any kind is set on it: the entry dict is exactly
the old one, it has no "orphaned" key and its status is still "approved",
not "orphaned". -/
theorem c7_counterexample :
    pyget (runLanguage (fun _ => some "X") []
        [("gear_optimizer/vue/y/Z",
          { strings := [⟨"gear_optimizer.vue.y.Z.0", "Hi", 2, "h2", none⟩] })]
        { glossary := []
          entries := [("gear_optimizer.vue.old.0",
            [("text", "공격"), ("status", "approved")])] }).entries
      "gear_optimizer.vue.old.0" =
        some [("text", "공격"), ("status", "approved")] ∧
    fieldOf (runLanguage (fun _ => some "X") []
        [("gear_optimizer/vue/y/Z",
          { strings := [⟨"gear_optimizer.vue.y.Z.0", "Hi", 2, "h2", none⟩] })]
        { glossary := []
          entries := [("gear_optimizer.vue.old.0",
            [("text", "공격"), ("status", "approved")])] }).entries
      "gear_optimizer.vue.old.0" "orphaned" = none ∧
    fieldOf (runLanguage (fun _ => some "X") []
        [("gear_optimizer/vue/y/Z",
          { strings := [⟨"gear_optimizer.vue.y.Z.0", "Hi", 2, "h2", none⟩] })]
        { glossary := []
          entries := [("gear_optimizer.vue.old.0",
            [("text", "공격"), ("status", "approved")])] }).entries
      "gear_optimizer.vue.old.0" "status" = some "approved" := by
  exact ⟨by decide, by decide, by decide⟩

/-- Claim C7 as amended: a per-language translation run never deletes or
modifies an entry whose identifier is absent from the current catalog — the
entry survives with all its data exactly as it was (and hence is intact if
the identifier later reappears); no orphan flag exists in the code, the
entry is simply left untouched. -/
theorem c7_amended_absent_ids_preserved (tr : String → Option String)
    (categories : List (String × GCategory)) (sections : Sections)
    (t : Translations) (id : String) (h : id ∉ catalogIds sections) :
    pyget (runLanguage tr categories sections t).entries id =
      pyget t.entries id := by
  show pyget (translate_strings tr true sections t.entries) id =
    pyget t.entries id
  exact translate_strings_absent tr true sections t.entries id h

/-- Witness for the amended C7 at the concrete run of the counterexample. -/
theorem c7_amended_witness :
    "gear_optimizer.vue.old.0" ∉ catalogIds
      [("gear_optimizer/vue/y/Z",
        { strings := [⟨"gear_optimizer.vue.y.Z.0", "Hi", 2, "h2", none⟩] })] ∧
    pyget (runLanguage (fun _ => some "X") []
        [("gear_optimizer/vue/y/Z",
          { strings := [⟨"gear_optimizer.vue.y.Z.0", "Hi", 2, "h2", none⟩] })]
        { glossary := []
          entries := [("gear_optimizer.vue.old.0",
            [("text", "공격"), ("status", "approved")])] }).entries
      "gear_optimizer.vue.old.0" =
      pyget [("gear_optimizer.vue.old.0",
        [("text", "공격"), ("status", "approved")])] "gear_optimizer.vue.old.0" :=
  ⟨by decide,
    c7_amended_absent_ids_preserved (fun _ => some "X") []
      [("gear_optimizer/vue/y/Z",
        { strings := [⟨"gear_optimizer.vue.y.Z.0", "Hi", 2, "h2", none⟩] })]
      { glossary := []
        entries := [("gear_optimizer.vue.old.0",
          [("text", "공격"), ("status", "approved")])] }
      "gear_optimizer.vue.old.0" (by decide)⟩

/-! ### Claim C3 — diff classification -/

theorem pyget_isSome_of_mem {α : Type} (l : List (String × α)) (id : String)
    (v : α) (h : (id, v) ∈ l) : (pyget l id).isSome := by
  induction l with
  | nil => cases h
  | cons hd tl ih =>
    obtain ⟨k, w⟩ := hd
    rcases List.mem_cons.mp h with h1 | h2
    · obtain ⟨hk, hv⟩ := Prod.mk.injEq .. ▸ h1
      simp [pyget, hk.symm]
    · by_cases hk : k = id
      · simp [pyget, hk]
      · simpa [pyget, hk] using ih h2

theorem mem_keys_iff_isSome {α : Type} (l : List (String × α)) (id : String) :
    id ∈ l.map Prod.fst ↔ (pyget l id).isSome := by
  constructor
  · intro h
    obtain ⟨⟨k, v⟩, hmem, hk⟩ := List.mem_map.mp h
    cases hk
    exact pyget_isSome_of_mem l _ v hmem
  · intro h
    induction l with
    | nil => simp [pyget] at h
    | cons hd tl ih =>
      obtain ⟨k, w⟩ := hd
      by_cases hk : k = id
      · simp [hk]
      · simp only [pyget, if_neg hk] at h
        simpa using Or.inr (ih h)

theorem pyget_eq_of_mem_nodup {α : Type} (l : List (String × α)) (id : String)
    (v : α) (hnd : (l.map Prod.fst).Nodup) (h : (id, v) ∈ l) :
    pyget l id = some v := by
  induction l with
  | nil => cases h
  | cons hd tl ih =>
    obtain ⟨k, w⟩ := hd
    simp only [List.map_cons, List.nodup_cons] at hnd
    rcases List.mem_cons.mp h with h1 | h2
    · obtain ⟨hk, hv⟩ := Prod.mk.injEq .. ▸ h1
      simp [pyget, hk.symm, hv.symm]
    · have hkid : k ≠ id := by
        intro hcontra
        exact hnd.1 (by
          subst hcontra
          exact List.mem_map.mpr ⟨(k, v), h2, rfl⟩)
      simpa [pyget, hkid] using ih hnd.2 h2

theorem mem_map_fst_filter {α : Type} (l : List (String × α))
    (P : String × α → Bool) (id : String) :
    id ∈ (l.filter P).map Prod.fst ↔ ∃ v, (id, v) ∈ l ∧ P (id, v) = true := by
  constructor
  · intro h
    obtain ⟨⟨k, v⟩, hmem, hk⟩ := List.mem_map.mp h
    obtain ⟨hl, hP⟩ := List.mem_filter.mp hmem
    subst hk
    exact ⟨v, hl, hP⟩
  · rintro ⟨v, hl, hP⟩
    exact List.mem_map.mpr ⟨(id, v), List.mem_filter.mpr ⟨hl, hP⟩, rfl⟩

theorem mem_of_pyget {α : Type} (l : List (String × α)) (id : String) (v : α)
    (h : pyget l id = some v) : (id, v) ∈ l := by
  induction l with
  | nil => simp [pyget] at h
  | cons hd tl ih =>
    obtain ⟨k, w⟩ := hd
    by_cases hk : k = id
    · subst hk
      have h' : w = v := by simpa [pyget] using h
      subst h'
      exact List.mem_cons_self _ _
    · simp only [pyget, if_neg hk] at h
      exact List.mem_cons_of_mem _ (ih h)

/-- Claim C3 (Diff Engine modelled from the spec, the code's diff being an
unimplemented TODO): the classification puts every identifier present in
either catalog generation into exactly one of the four classes, and the
classes mean exactly: added = in current only, removed = in previous only,
changed = in both with differing fingerprints, unchanged = in both with
equal fingerprints. -/
theorem c3_diff_partition (prev cur : FpCatalog) (id : String)
    (hc : (cur.map Prod.fst).Nodup)
    (hmem : id ∈ prev.map Prod.fst ∨ id ∈ cur.map Prod.fst) :
    inExactlyOne (diffCatalogs prev cur) id ∧
    (id ∈ (diffCatalogs prev cur).added ↔
      (pyget cur id).isSome ∧ pyget prev id = none) ∧
    (id ∈ (diffCatalogs prev cur).removed ↔
      (pyget prev id).isSome ∧ pyget cur id = none) ∧
    (id ∈ (diffCatalogs prev cur).changed ↔
      ∃ f g, pyget prev id = some f ∧ pyget cur id = some g ∧ f ≠ g) ∧
    (id ∈ (diffCatalogs prev cur).unchanged ↔
      ∃ f, pyget prev id = some f ∧ pyget cur id = some f) := by
  have hadded : id ∈ (diffCatalogs prev cur).added ↔
      (pyget cur id).isSome ∧ pyget prev id = none := by
    show id ∈ (cur.filter (fun p => (pyget prev p.1).isNone)).map Prod.fst ↔ _
    rw [mem_map_fst_filter]
    constructor
    · rintro ⟨v, hv, hP⟩
      simp only [Option.isNone_iff_eq_none] at hP
      exact ⟨pyget_isSome_of_mem cur id v hv, hP⟩
    · rintro ⟨h1, h2⟩
      obtain ⟨v, hv⟩ := Option.isSome_iff_exists.mp h1
      exact ⟨v, mem_of_pyget cur id v hv, by simp [h2]⟩
  have hremoved : id ∈ (diffCatalogs prev cur).removed ↔
      (pyget prev id).isSome ∧ pyget cur id = none := by
    show id ∈ (prev.filter (fun p => (pyget cur p.1).isNone)).map Prod.fst ↔ _
    rw [mem_map_fst_filter]
    constructor
    · rintro ⟨v, hv, hP⟩
      simp only [Option.isNone_iff_eq_none] at hP
      exact ⟨pyget_isSome_of_mem prev id v hv, hP⟩
    · rintro ⟨h1, h2⟩
      obtain ⟨v, hv⟩ := Option.isSome_iff_exists.mp h1
      exact ⟨v, mem_of_pyget prev id v hv, by simp [h2]⟩
  have hchanged : id ∈ (diffCatalogs prev cur).changed ↔
      ∃ f g, pyget prev id = some f ∧ pyget cur id = some g ∧ f ≠ g := by
    show id ∈ (cur.filter (fun p =>
      match pyget prev p.1 with
      | some f => f != p.2
      | none => false)).map Prod.fst ↔ _
    rw [mem_map_fst_filter]
    constructor
    · rintro ⟨v, hv, hP⟩
      cases hpv : pyget prev id with
      | none => rw [hpv] at hP; cases hP
      | some f =>
        rw [hpv] at hP
        exact ⟨f, v, rfl, pyget_eq_of_mem_nodup cur id v hc hv,
          bne_iff_ne.mp hP⟩
    · rintro ⟨f, g, hpf, hcg, hne⟩
      refine ⟨g, mem_of_pyget cur id g hcg, ?_⟩
      rw [hpf]
      exact bne_iff_ne.mpr hne
  have hunchanged : id ∈ (diffCatalogs prev cur).unchanged ↔
      ∃ f, pyget prev id = some f ∧ pyget cur id = some f := by
    show id ∈ (cur.filter (fun p =>
      match pyget prev p.1 with
      | some f => f == p.2
      | none => false)).map Prod.fst ↔ _
    rw [mem_map_fst_filter]
    constructor
    · rintro ⟨v, hv, hP⟩
      cases hpv : pyget prev id with
      | none => rw [hpv] at hP; cases hP
      | some f =>
        rw [hpv] at hP
        have := beq_iff_eq.mp hP
        subst this
        exact ⟨f, rfl, pyget_eq_of_mem_nodup cur id f hc hv⟩
    · rintro ⟨f, hpf, hcf⟩
      refine ⟨f, mem_of_pyget cur id f hcf, ?_⟩
      rw [hpf]
      exact beq_iff_eq.mpr rfl
  refine ⟨?_, hadded, hremoved, hchanged, hunchanged⟩
  unfold inExactlyOne
  rcases hpv : pyget prev id with _ | f <;> rcases hcv : pyget cur id with _ | g
  · exfalso
    rcases hmem with hm | hm
    · rw [mem_keys_iff_isSome, hpv] at hm; cases hm
    · rw [mem_keys_iff_isSome, hcv] at hm; cases hm
  · simp [hadded, hremoved, hchanged, hunchanged, hpv, hcv]
  · simp [hadded, hremoved, hchanged, hunchanged, hpv, hcv]
  · by_cases hfg : f = g
    · subst hfg
      simp [hadded, hremoved, hchanged, hunchanged, hpv, hcv]
    · simp only [hadded, hremoved, hchanged, hunchanged, hpv, hcv]
      refine Or.inr (Or.inr (Or.inl ⟨?_, ?_, ?_, ?_⟩))
      · rintro ⟨h1, h2⟩; cases h2
      · rintro ⟨h1, h2⟩; cases h2
      · exact ⟨f, g, rfl, rfl, hfg⟩
      · rintro ⟨f', h1, h2⟩
        rw [Option.some.injEq] at h1 h2
        exact hfg (h1.trans h2.symm)

/-- Witness for C3 at concrete catalogs exhibiting all four classes. -/
theorem c3_witness :
    (([("a", "f1"), ("b", "f2"), ("c", "f3")] : FpCatalog).map Prod.fst).Nodup ∧
    ("b" ∈ ([("a", "f1"), ("b", "f2"), ("c", "f3")] : FpCatalog).map Prod.fst ∨
      "b" ∈ ([("b", "f9"), ("c", "f3"), ("d", "f4")] : FpCatalog).map Prod.fst) ∧
    (inExactlyOne (diffCatalogs [("a", "f1"), ("b", "f2"), ("c", "f3")]
        [("b", "f9"), ("c", "f3"), ("d", "f4")]) "b" ∧
      ("b" ∈ (diffCatalogs [("a", "f1"), ("b", "f2"), ("c", "f3")]
          [("b", "f9"), ("c", "f3"), ("d", "f4")]).added ↔
        (pyget [("b", "f9"), ("c", "f3"), ("d", "f4")] "b").isSome ∧
          pyget [("a", "f1"), ("b", "f2"), ("c", "f3")] "b" = none) ∧
      ("b" ∈ (diffCatalogs [("a", "f1"), ("b", "f2"), ("c", "f3")]
          [("b", "f9"), ("c", "f3"), ("d", "f4")]).removed ↔
        (pyget [("a", "f1"), ("b", "f2"), ("c", "f3")] "b").isSome ∧
          pyget [("b", "f9"), ("c", "f3"), ("d", "f4")] "b" = none) ∧
      ("b" ∈ (diffCatalogs [("a", "f1"), ("b", "f2"), ("c", "f3")]
          [("b", "f9"), ("c", "f3"), ("d", "f4")]).changed ↔
        ∃ f g, pyget [("a", "f1"), ("b", "f2"), ("c", "f3")] "b" = some f ∧
          pyget [("b", "f9"), ("c", "f3"), ("d", "f4")] "b" = some g ∧ f ≠ g) ∧
      ("b" ∈ (diffCatalogs [("a", "f1"), ("b", "f2"), ("c", "f3")]
          [("b", "f9"), ("c", "f3"), ("d", "f4")]).unchanged ↔
        ∃ f, pyget [("a", "f1"), ("b", "f2"), ("c", "f3")] "b" = some f ∧
          pyget [("b", "f9"), ("c", "f3"), ("d", "f4")] "b" = some f)) :=
  ⟨by decide, by decide,
    c3_diff_partition [("a", "f1"), ("b", "f2"), ("c", "f3")]
      [("b", "f9"), ("c", "f3"), ("d", "f4")] "b" (by decide)
      (Or.inl (by decide))⟩

/-! ### Claim C8 — export key simplification -/

theorem keyPartsOfList_eq_specKeyOfList (l : List String) :
    keyPartsOfList l = specKeyOfList l := by
  rcases h : l.reverse with _ | ⟨a, t⟩
  · have hl : l = [] := by
      have := congrArg List.reverse h
      simpa using this
    subst hl
    rfl
  · rcases t with _ | ⟨b, t2⟩
    · have hl : l = [a] := by
        have := congrArg List.reverse h
        simpa using this
      subst hl
      rfl
    · rcases t2 with _ | ⟨c, r⟩
      · have hl : l = [b, a] := by
          have := congrArg List.reverse h
          simpa using this
        subst hl
        rfl
      · have hlen : 3 ≤ l.length := by
          have := congrArg List.length h
          simp at this
          omega
        simp only [keyPartsOfList, specKeyOfList, h, hlen, if_true]
        by_cases hb : b ∈ contextTags <;> simp [hb]

/-- Claim C8: the export key simplification is exactly the deterministic
rule of the spec (last two meaningful segments for ids with at least 3
dot-separated segments, shifting over a context tag in second-to-last
position, identifiers with fewer segments verbatim), and exporting the
approved entry for id "a.b.0" with text "공격" yields the nested structure
b -> 0 -> "공격". -/
theorem c8_export_key_rule :
    (∀ string_id : String, keyParts string_id = specSimplifiedKey string_id) ∧
    export_gear_optimizer
        [("gear_optimizer/x", { strings := [⟨"a.b.0", "Attack", 6, "h1", none⟩] })]
        [("a.b.0", [("text", "공격"), ("status", "approved")])] =
      some (NJson.obj [("b", NJson.obj [("0", NJson.str "공격")])]) := by
  constructor
  · intro sid
    exact keyPartsOfList_eq_specKeyOfList (splitDot sid)
  · rfl

/-! ### Claim C4 — extraction determinism, and Claim C9 — duplicates -/

/-- Claim C4 (code bug): `extract_vue_strings` returns `list(set(strings))`
and CPython enumerates a set of strings in an order determined by the
per-process randomized string hash, so two runs over the same unchanged
source may order the same distinct strings differently; the catalog then
assigns the positional identifiers to different texts and the two catalogs
differ well beyond the timestamp.  The two orders used here are both
enumerations of the same distinct elements. -/
theorem c4_extraction_order_not_deterministic (hashStr : String → String) :
    extract_vue_strings setOrderA ["Attack", "Defense"] [] =
      ["Attack", "Defense"] ∧
    extract_vue_strings setOrderB ["Attack", "Defense"] [] =
      ["Defense", "Attack"] ∧
    (["Attack", "Defense"] : List String).Perm ["Defense", "Attack"] ∧
    buildVueSection "gear_optimizer/vue/layout/AppHeader" hashStr
        (extract_vue_strings setOrderA ["Attack", "Defense"] []) ≠
      buildVueSection "gear_optimizer/vue/layout/AppHeader" hashStr
        (extract_vue_strings setOrderB ["Attack", "Defense"] []) := by
  have e1 : extract_vue_strings setOrderA ["Attack", "Defense"] [] =
      ["Attack", "Defense"] := rfl
  have e2 : extract_vue_strings setOrderB ["Attack", "Defense"] [] =
      ["Defense", "Attack"] := rfl
  refine ⟨e1, e2, by decide, ?_⟩
  intro hcontra
  rw [e1, e2] at hcontra
  have h := congrArg (List.map CatRecord.en) hcontra
  simp [buildVueSection, buildVueRecs] at h

theorem buildMdRecs_getElem (section_name : String) (hashStr : String → String) :
    ∀ (pairs : List (String × String)) (i j : Nat),
      (buildMdRecs section_name hashStr i pairs)[j]? =
        (pairs[j]?).map (fun p =>
          ⟨pyReplaceSlash section_name ++ "." ++ p.1 ++ "." ++ toString (i + j),
           p.2, p.2.length, hashStr p.2, some p.1⟩) := by
  intro pairs
  induction pairs with
  | nil => intro i j; simp [buildMdRecs]
  | cons p rest ih =>
    intro i j
    obtain ⟨str_type, text⟩ := p
    cases j with
    | zero => simp [buildMdRecs]
    | succ j =>
      simp only [buildMdRecs, List.getElem?_cons_succ]
      have hadd : i + 1 + j = i + (j + 1) := by omega
      rw [← hadd]
      exact ih (i + 1) j

/-- Claim C9 as amended: markdown extraction keeps duplicate raw texts as
separate catalog records whose identifiers differ by positional index (for
any extraction output, every occurrence is materialised at its position
with the index in its id), as the concrete duplicate shows; Vue extraction
however de-duplicates identical raw texts through `list(set(strings))`, so
there the claim fails (see the counterexample). -/
theorem c9_amended_markdown_duplicates_kept :
    (∀ (section_name : String) (hashStr : String → String)
        (pairs : List (String × String)),
      (buildMdSection section_name hashStr pairs).length = pairs.length ∧
      ∀ j : Nat, (buildMdSection section_name hashStr pairs)[j]? =
        (pairs[j]?).map (fun p =>
          ⟨pyReplaceSlash section_name ++ "." ++ p.1 ++ "." ++ toString j,
           p.2, p.2.length, hashStr p.2, some p.1⟩)) ∧
    (∀ hashStr : String → String,
      extract_markdown_strings "- Attack\n- Attack" =
        [("list_item", "Attack"), ("list_item", "Attack")] ∧
      (buildMdSection "gear_optimizer/content/faq" hashStr
          (extract_markdown_strings "- Attack\n- Attack")).map CatRecord.id =
        ["gear_optimizer.content.faq.list_item.0",
         "gear_optimizer.content.faq.list_item.1"] ∧
      (buildMdSection "gear_optimizer/content/faq" hashStr
          (extract_markdown_strings "- Attack\n- Attack")).map CatRecord.en =
        ["Attack", "Attack"]) := by
  constructor
  · intro section_name hashStr pairs
    constructor
    · show (buildMdRecs section_name hashStr 0 pairs).length = pairs.length
      induction pairs with
      | nil => rfl
      | cons p rest ih =>
        have hlen : ∀ (i : Nat) (l : List (String × String)),
            (buildMdRecs section_name hashStr i l).length = l.length := by
          intro i l
          induction l generalizing i with
          | nil => rfl
          | cons q qs ihq =>
            obtain ⟨a, b⟩ := q
            simp [buildMdRecs, ihq]
        exact hlen 0 (p :: rest)
    · intro j
      have := buildMdRecs_getElem section_name hashStr pairs 0 j
      simpa [buildMdSection] using this
  · intro hashStr
    exact ⟨rfl, rfl, rfl⟩

/-- Claim C9 counterexample: a Vue section whose raw extraction yields two
occurrences of the identical text "Attack" produces a single catalog
record, not two — the duplicates are collapsed by `list(set(strings))`. -/
theorem c9_counterexample :
    (["Attack", "Attack"] : List String).length = 2 ∧
    (buildVueSection "gear_optimizer/vue/x/Y" (fun s => s)
        (extract_vue_strings setOrderA ["Attack", "Attack"] [])).length = 1 := by
  exact ⟨rfl, rfl⟩

/-! ### Claims C5 and C6 — export round-trip and collisions -/

/-- Claim C5 counterexample: two qualifying identifiers, "x.b.0" with text
"T1" and "y.b.0" with text "T2", map to the same simplified key path
b -> 0; after export the value at that path — the export key of the entry
for "x.b.0" — is "T2", not that entry's text "T1". -/
theorem c5_counterexample :
    keyParts "x.b.0" = ["b", "0"] ∧ keyParts "y.b.0" = ["b", "0"] ∧
    statusQualifies [("text", "T1"), ("status", "approved")] = true ∧
    export_gear_optimizer
        [("gear_optimizer/a", { strings := [⟨"x.b.0", "A", 1, "h1", none⟩,
          ⟨"y.b.0", "B", 1, "h2", none⟩] })]
        [("x.b.0", [("text", "T1"), ("status", "approved")]),
         ("y.b.0", [("text", "T2"), ("status", "approved")])] =
      some (NJson.obj [("b", NJson.obj [("0", NJson.str "T2")])]) ∧
    nlookup (NJson.obj [("b", NJson.obj [("0", NJson.str "T2")])])
      (keyParts "x.b.0") = some "T2" ∧
    (fieldOf [("x.b.0", [("text", "T1"), ("status", "approved")]),
      ("y.b.0", [("text", "T2"), ("status", "approved")])] "x.b.0" "text").getD ""
      = "T1" ∧
    ("T2" : String) ≠ "T1" := by
  exact ⟨rfl, rfl, rfl, rfl, rfl, rfl, by decide⟩

/-- Claim C6 (code bug): two distinct identifiers "p.q.1" and "r.q.1" map
to the same simplified export path q -> 1; the export does not report the
collision nor withhold the path — it silently keeps the later identifier's
value ("second"), the earlier value being overwritten. -/
theorem c6_collision_silently_overwritten :
    keyParts "p.q.1" = keyParts "r.q.1" ∧
    export_gear_optimizer
        [("gear_optimizer/s", { strings := [⟨"p.q.1", "E1", 2, "h1", none⟩,
          ⟨"r.q.1", "E2", 2, "h2", none⟩] })]
        [("p.q.1", [("text", "first"), ("status", "approved")]),
         ("r.q.1", [("text", "second"), ("status", "approved")])] =
      some (NJson.obj [("q", NJson.obj [("1", NJson.str "second")])]) := by
  exact ⟨rfl, rfl⟩

theorem nlookup_obj_nil (q : List String) : nlookup (NJson.obj []) q = none := by
  cases q <;> rfl

theorem incompB_nil_right (p : List String) : incompB p [] = false := by
  simp [incompB, leadOf]

theorem incompB_nil_left (p : List String) : incompB [] p = false := by
  simp [incompB, leadOf]

theorem incompB_comm (p q : List String) : incompB p q = incompB q p := by
  simp [incompB, Bool.and_comm]

/-- A successful insert makes the written value readable at its path. -/
theorem insertPath_nlookup : ∀ (p : List String) (j : NJson) (v : String)
    (j' : NJson), insertPath j p v = some j' → nlookup j' p = some v := by
  intro p
  induction p with
  | nil => intro j v j' h; cases j <;> simp [insertPath] at h
  | cons k rest ih =>
    intro j v j' h
    cases j with
    | str s => simp [insertPath] at h
    | obj m =>
      cases rest with
      | nil =>
        simp only [insertPath, Option.some.injEq] at h
        subst h
        simp [nlookup, pyget_pyset_self]
      | cons k2 rest2 =>
        simp only [insertPath] at h
        cases hc : insertPath ((pyget m k).getD (NJson.obj [])) (k2 :: rest2) v with
        | none => rw [hc] at h; cases h
        | some c =>
          rw [hc] at h
          simp only [Option.some.injEq] at h
          subst h
          simp only [nlookup, pyget_pyset_self]
          exact ih _ v c hc

/-- A successful insert does not change the value readable at any path that
is incomparable with the written path. -/
theorem insertPath_frame : ∀ (p : List String) (j : NJson) (v : String)
    (j' : NJson), insertPath j p v = some j' →
    ∀ q : List String, incompB p q = true → nlookup j' q = nlookup j q := by
  intro p
  induction p with
  | nil => intro j v j' h; cases j <;> simp [insertPath] at h
  | cons k rest ih =>
    intro j v j' h q hq
    cases j with
    | str s => simp [insertPath] at h
    | obj m =>
      cases q with
      | nil => rw [incompB_nil_right] at hq; cases hq
      | cons b bs =>
        by_cases hbk : b = k
        · subst hbk
          have hq' : incompB rest bs = true := by
            simpa [incompB, leadOf] using hq
          cases rest with
          | nil => rw [incompB_nil_left] at hq'; cases hq'
          | cons k2 rest2 =>
            simp only [insertPath] at h
            cases hc : insertPath ((pyget m b).getD (NJson.obj []))
                (k2 :: rest2) v with
            | none => rw [hc] at h; cases h
            | some c =>
              rw [hc] at h
              simp only [Option.some.injEq] at h
              subst h
              simp only [nlookup, pyget_pyset_self]
              have hch := ih ((pyget m b).getD (NJson.obj [])) v c hc bs hq'
              cases hmb : pyget m b with
              | some ch =>
                rw [hmb] at hch
                simp only [Option.getD] at hch
                rw [hch]
              | none =>
                rw [hmb] at hch
                simp only [Option.getD] at hch
                rw [nlookup_obj_nil] at hch
                rw [hch]
        · cases rest with
          | nil =>
            simp only [insertPath, Option.some.injEq] at h
            subst h
            simp only [nlookup]
            rw [pyget_pyset_other m k b _ hbk]
          | cons k2 rest2 =>
            simp only [insertPath] at h
            cases hc : insertPath ((pyget m k).getD (NJson.obj []))
                (k2 :: rest2) v with
            | none => rw [hc] at h; cases h
            | some c =>
              rw [hc] at h
              simp only [Option.some.injEq] at h
              subst h
              simp only [nlookup]
              rw [pyget_pyset_other m k b _ hbk]

/-- Inserting into an object yields an object. -/
theorem insertPath_obj : ∀ (p : List String) (m : List (String × NJson))
    (v : String) (j' : NJson), insertPath (NJson.obj m) p v = some j' →
    ∃ m', j' = NJson.obj m' := by
  intro p m v j' h
  cases p with
  | nil => simp [insertPath] at h
  | cons k rest =>
    cases rest with
    | nil =>
      simp only [insertPath, Option.some.injEq] at h
      exact ⟨_, h.symm⟩
    | cons k2 rest2 =>
      simp only [insertPath] at h
      cases hc : insertPath ((pyget m k).getD (NJson.obj [])) (k2 :: rest2) v with
      | none => rw [hc] at h; cases h
      | some c =>
        rw [hc] at h
        simp only [Option.some.injEq] at h
        exact ⟨_, h.symm⟩

/-- Inserting at a non-empty path into an object succeeds whenever no
proper initial segment of the path currently reads as a string leaf. -/
theorem insertPath_isSome : ∀ (p : List String) (m : List (String × NJson))
    (v : String), p ≠ [] →
    (∀ q, leadOf q p = true → q ≠ p → nlookup (NJson.obj m) q = none) →
    (insertPath (NJson.obj m) p v).isSome := by
  intro p
  induction p with
  | nil => intro m v h _; cases h rfl
  | cons k rest ih =>
    intro m v _ hblock
    cases rest with
    | nil => simp [insertPath]
    | cons k2 rest2 =>
      simp only [insertPath]
      cases hmk : pyget m k with
      | none =>
        have hs := ih ([] : List (String × NJson)) v (by simp)
          (fun q _ _ => nlookup_obj_nil q)
        simp only [Option.getD]
        cases hc : insertPath (NJson.obj []) (k2 :: rest2) v with
        | none => rw [hc] at hs; cases hs
        | some c => simp [hc]
      | some ch =>
        cases ch with
        | str s =>
          exfalso
          have hlk : nlookup (NJson.obj m) [k] = some s := by
            simp [nlookup, hmk]
          have hnone := hblock [k] (by simp [leadOf]) (by simp) 
          rw [hlk] at hnone
          cases hnone
        | obj m' =>
          have hs := ih m' v (by simp) (by
            intro q hlead hqne
            cases q with
            | nil => rfl
            | cons b bs =>
              have hlead2 : leadOf (k :: b :: bs) (k :: k2 :: rest2) = true := by
                simpa [leadOf] using hlead
              have hqne2 : (k :: b :: bs) ≠ (k :: k2 :: rest2) := by
                intro hcontra
                exact hqne (by injection hcontra)
              have := hblock (k :: b :: bs) hlead2 hqne2
              simpa [nlookup, hmk] using this)
          simp only [Option.getD]
          cases hc : insertPath (NJson.obj m') (k2 :: rest2) v with
          | none => rw [hc] at hs; cases hs
          | some c => simp [hc]

/-- Every value readable after an insert is either the inserted value at
the inserted path, or was already readable before. -/
theorem insertPath_leaves : ∀ (p : List String) (j : NJson) (v : String)
    (j' : NJson), insertPath j p v = some j' →
    ∀ q w, nlookup j' q = some w → (q = p ∧ w = v) ∨ nlookup j q = some w := by
  intro p
  induction p with
  | nil => intro j v j' h; cases j <;> simp [insertPath] at h
  | cons k rest ih =>
    intro j v j' h q w hq
    cases j with
    | str s => simp [insertPath] at h
    | obj m =>
      cases rest with
      | nil =>
        simp only [insertPath, Option.some.injEq] at h
        subst h
        cases q with
        | nil => cases hq
        | cons b bs =>
          by_cases hbk : b = k
          · subst hbk
            simp only [nlookup, pyget_pyset_self] at hq
            cases bs with
            | nil =>
              simp only [nlookup, Option.some.injEq] at hq
              exact Or.inl ⟨rfl, hq.symm⟩
            | cons b2 bs2 => cases hq
          · simp only [nlookup] at hq
            rw [pyget_pyset_other m k b _ hbk] at hq
            exact Or.inr (by simpa [nlookup] using hq)
      | cons k2 rest2 =>
        simp only [insertPath] at h
        cases hc : insertPath ((pyget m k).getD (NJson.obj [])) (k2 :: rest2) v with
        | none => rw [hc] at h; cases h
        | some c =>
          rw [hc] at h
          simp only [Option.some.injEq] at h
          subst h
          cases q with
          | nil => cases hq
          | cons b bs =>
            by_cases hbk : b = k
            · subst hbk
              simp only [nlookup, pyget_pyset_self] at hq
              rcases ih _ v c hc bs w hq with ⟨hq1, hq2⟩ | hold
              · subst hq1
                exact Or.inl ⟨rfl, hq2⟩
              · cases hmb : pyget m b with
                | some ch =>
                  rw [hmb] at hold
                  simp only [Option.getD] at hold
                  exact Or.inr (by simpa [nlookup, hmb] using hold)
                | none =>
                  rw [hmb] at hold
                  simp only [Option.getD] at hold
                  rw [nlookup_obj_nil] at hold
                  cases hold
            · simp only [nlookup] at hq
              rw [pyget_pyset_other m k b _ hbk] at hq
              exact Or.inr (by simpa [nlookup] using hq)

theorem foldl_bind_none (ws : List (List String × String)) :
    ws.foldl (fun acc w => acc.bind (fun t => insertPath t w.1 w.2)) none = none := by
  induction ws with
  | nil => rfl
  | cons w rest ih => simpa using ih

theorem foldInsert_cons (j : NJson) (w : List String × String)
    (rest : List (List String × String)) :
    foldInsert j (w :: rest) =
      match insertPath j w.1 w.2 with
      | some j1 => foldInsert j1 rest
      | none => none := by
  cases hc : insertPath j w.1 w.2 with
  | some j1 => simp [foldInsert, hc]
  | none => simp [foldInsert, hc, foldl_bind_none]

/-- Folding writes whose paths are all incomparable with `q` does not change
the value readable at `q`. -/
theorem foldInsert_frame : ∀ (ws : List (List String × String))
    (j j' : NJson) (q : List String), foldInsert j ws = some j' →
    (∀ w ∈ ws, incompB w.1 q = true) → nlookup j' q = nlookup j q := by
  intro ws
  induction ws with
  | nil =>
    intro j j' q h _
    simp only [foldInsert, List.foldl, Option.some.injEq] at h
    subst h
    rfl
  | cons w rest ih =>
    intro j j' q h hq
    rw [foldInsert_cons] at h
    cases hc : insertPath j w.1 w.2 with
    | none => rw [hc] at h; cases h
    | some j1 =>
      rw [hc] at h
      have h1 := ih j1 j' q h (fun w' hw' => hq w' (List.mem_cons_of_mem _ hw'))
      rw [h1]
      exact insertPath_frame w.1 j w.2 j1 hc q (hq w (List.mem_cons_self _ _))

/-- Folding a list of pairwise incomparable, non-empty writes into an
object whose readable values are all in `done` succeeds, makes every write
readable at its path, and introduces no value beyond `done` and the writes
themselves. -/
theorem foldInsert_spec : ∀ (ws : List (List String × String))
    (m : List (String × NJson)) (done : List (List String × String)),
    (∀ p v, nlookup (NJson.obj m) p = some v → (p, v) ∈ done) →
    (∀ d ∈ done, ∀ w ∈ ws, incompB d.1 w.1 = true) →
    pairwiseIncompB (ws.map Prod.fst) = true →
    (∀ w ∈ ws, w.1 ≠ []) →
    ∃ j', foldInsert (NJson.obj m) ws = some j' ∧
      (∀ w ∈ ws, nlookup j' w.1 = some w.2) ∧
      (∀ p v, nlookup j' p = some v → (p, v) ∈ done ∨ (p, v) ∈ ws) := by
  intro ws
  induction ws with
  | nil =>
    intro m done hdone _ _ _
    refine ⟨NJson.obj m, rfl, by simp, fun p v h => Or.inl (hdone p v h)⟩
  | cons w rest ih =>
    intro m done hdone hdw hpw hne
    have hw_ne : w.1 ≠ [] := hne w (List.mem_cons_self _ _)
    have hblock : ∀ q, leadOf q w.1 = true → q ≠ w.1 →
        nlookup (NJson.obj m) q = none := by
      intro q hlead hqne
      cases hq : nlookup (NJson.obj m) q with
      | none => rfl
      | some s =>
        exfalso
        have hmem := hdone q s hq
        have hinc := hdw (q, s) hmem w (List.mem_cons_self _ _)
        rw [incompB] at hinc
        rw [hlead] at hinc
        simp at hinc
    have hsome := insertPath_isSome w.1 m w.2 hw_ne hblock
    obtain ⟨j1, hj1⟩ := Option.isSome_iff_exists.mp hsome
    obtain ⟨m1, rfl⟩ := insertPath_obj w.1 m w.2 j1 hj1
    have hall : (List.map Prod.fst rest).all (fun q => incompB w.1 q) = true := by
      simp only [List.map_cons, pairwiseIncompB, Bool.and_eq_true] at hpw
      exact hpw.1
    have hdone1 : ∀ p v, nlookup (NJson.obj m1) p = some v →
        (p, v) ∈ done ++ [w] := by
      intro p v hp
      rcases insertPath_leaves w.1 (NJson.obj m) w.2 _ hj1 p v hp with ⟨hq, hv⟩ | hold
      · subst hq; subst hv
        simp
      · exact List.mem_append.mpr (Or.inl (hdone p v hold))
    have hdw1 : ∀ d ∈ done ++ [w], ∀ w' ∈ rest, incompB d.1 w'.1 = true := by
      intro d hd w' hw'
      rcases List.mem_append.mp hd with h1 | h2
      · exact hdw d h1 w' (List.mem_cons_of_mem _ hw')
      · have hd2 : d = w := by simpa using h2
        subst hd2
        exact List.all_eq_true.mp hall w'.1 (List.mem_map.mpr ⟨w', hw', rfl⟩)
    have hpw1 : pairwiseIncompB (rest.map Prod.fst) = true := by
      simp only [List.map_cons, pairwiseIncompB, Bool.and_eq_true] at hpw
      exact hpw.2
    have hne1 : ∀ w' ∈ rest, w'.1 ≠ [] :=
      fun w' hw' => hne w' (List.mem_cons_of_mem _ hw')
    obtain ⟨j', hfold, hlook, hleaves⟩ := ih m1 (done ++ [w]) hdone1 hdw1 hpw1 hne1
    refine ⟨j', ?_, ?_, ?_⟩
    · rw [foldInsert_cons, hj1]
      exact hfold
    · intro w' hw'
      rcases List.mem_cons.mp hw' with h1 | h2
      · subst h1
        have hstart : nlookup (NJson.obj m1) w'.1 = some w'.2 :=
          insertPath_nlookup w'.1 _ w'.2 _ hj1
        have hfr : nlookup j' w'.1 = nlookup (NJson.obj m1) w'.1 := by
          refine foldInsert_frame rest _ j' w'.1 hfold ?_
          intro w2 hw2
          rw [incompB_comm]
          exact List.all_eq_true.mp hall w2.1 (List.mem_map.mpr ⟨w2, hw2, rfl⟩)
        rw [hfr]
        exact hstart
      · exact hlook w' h2
    · intro p v hp
      rcases hleaves p v hp with hin | hin
      · rcases List.mem_append.mp hin with h1 | h2
        · exact Or.inl h1
        · have hpv : (p, v) = w := by simpa using h2
          exact Or.inr (hpv ▸ List.mem_cons_self _ _)
      · exact Or.inr (List.mem_cons_of_mem _ hin)

theorem exportStringWrite_eq (translations : Store)
    (acc : List (List String × String)) (s : CatRecord) :
    exportStringWrite translations acc s =
      if entryQualifies translations s.id then
        acc ++ [(keyParts s.id, textAt translations s.id)]
      else acc := by
  cases he : pyget translations s.id with
  | none => simp [exportStringWrite, entryQualifies, he]
  | some e =>
    by_cases hq : statusQualifies e = true
    · simp [exportStringWrite, entryQualifies, textAt, fieldOf, he, hq]
    · simp [exportStringWrite, entryQualifies, he, hq]

/-- Closed form of the export writes: one write per qualifying string of
each gear_optimizer section, in extraction order. -/
theorem exportWrites_eq (secs : Sections) (translations : Store) :
    exportWrites secs translations =
      secs.flatMap (fun sec =>
        if pyStarts sec.1 "gear_optimizer/" then
          (sec.2.strings.filter (fun s => entryQualifies translations s.id)).map
            (fun s => (keyParts s.id, textAt translations s.id))
        else []) := by
  have hinner : ∀ (l : List CatRecord) (acc : List (List String × String)),
      l.foldl (exportStringWrite translations) acc =
        acc ++ (l.filter (fun s => entryQualifies translations s.id)).map
          (fun s => (keyParts s.id, textAt translations s.id)) := by
    intro l
    induction l with
    | nil => intro acc; simp
    | cons s rest ihs =>
      intro acc
      rw [List.foldl_cons, exportStringWrite_eq]
      by_cases hq : entryQualifies translations s.id
      · rw [if_pos hq, ihs]
        simp [hq, List.filter_cons]
      · rw [if_neg hq, ihs]
        simp [hq, List.filter_cons]
  have houter : ∀ (ss : Sections) (acc : List (List String × String)),
      ss.foldl (fun acc sec =>
          if pyStarts sec.1 "gear_optimizer/" then
            sec.2.strings.foldl (exportStringWrite translations) acc
          else acc) acc =
        acc ++ ss.flatMap (fun sec =>
          if pyStarts sec.1 "gear_optimizer/" then
            (sec.2.strings.filter (fun s => entryQualifies translations s.id)).map
              (fun s => (keyParts s.id, textAt translations s.id))
          else []) := by
    intro ss
    induction ss with
    | nil => intro acc; simp
    | cons sec rest ihs =>
      intro acc
      simp only [List.foldl_cons]
      by_cases hsec : pyStarts sec.1 "gear_optimizer/" = true
      · rw [if_pos hsec, hinner, ihs]
        simp [hsec, List.flatMap_cons]
      · rw [if_neg hsec, ihs]
        simp [hsec, List.flatMap_cons]
  exact houter secs []

/-- Membership in the export writes: exactly the qualifying entries of
gear_optimizer sections, written at their simplified key paths with their
stored text. -/
theorem mem_exportWrites (secs : Sections) (translations : Store)
    (x : List String × String) :
    x ∈ exportWrites secs translations ↔
      ∃ name sec s e, (name, sec) ∈ secs ∧
        pyStarts name "gear_optimizer/" = true ∧ s ∈ sec.strings ∧
        pyget translations s.id = some e ∧ statusQualifies e = true ∧
        x = (keyParts s.id, (pyget e "text").getD "") := by
  rw [exportWrites_eq]
  simp only [List.mem_flatMap]
  constructor
  · rintro ⟨sec, hsec, hx⟩
    by_cases hs : pyStarts sec.1 "gear_optimizer/" = true
    · rw [if_pos hs] at hx
      obtain ⟨s, hsf, hxeq⟩ := List.mem_map.mp hx
      obtain ⟨hsmem, hq⟩ := List.mem_filter.mp hsf
      cases he : pyget translations s.id with
      | none => simp [entryQualifies, he] at hq
      | some e =>
        refine ⟨sec.1, sec.2, s, e, by simpa using hsec, hs, hsmem, he, ?_, ?_⟩
        · simpa [entryQualifies, he] using hq
        · rw [← hxeq]
          simp [textAt, fieldOf, he]
    · rw [if_neg hs] at hx
      cases hx
  · rintro ⟨name, sec, s, e, hmem, hs, hsmem, he, hq, hxeq⟩
    refine ⟨(name, sec), hmem, ?_⟩
    rw [if_pos (by simpa using hs)]
    refine List.mem_map.mpr ⟨s, List.mem_filter.mpr ⟨hsmem, ?_⟩, ?_⟩
    · simp [entryQualifies, he, hq]
    · rw [hxeq]
      simp [textAt, fieldOf, he]

/-- Claim C5 as amended: provided no two qualifying identifiers map to the
same or nested simplified key paths (pairwise incomparable write paths —
without this proviso the counterexample applies), the export succeeds, the
value readable at every qualifying entry's key path equals that entry's
stored text (`get("text", "")`), and every value in the nested output comes
from some threshold-passing entry — entries below the threshold never
appear anywhere in the output. -/
theorem c5_amended_export_roundtrip (source_sections : Sections)
    (translations : Store)
    (hinc : pairwiseIncompB
      ((exportWrites source_sections translations).map Prod.fst) = true)
    (hne : ∀ w ∈ exportWrites source_sections translations, w.1 ≠ []) :
    ∃ nested, export_gear_optimizer source_sections translations = some nested ∧
      (∀ name sec s e, (name, sec) ∈ source_sections →
        pyStarts name "gear_optimizer/" = true → s ∈ sec.strings →
        pyget translations s.id = some e → statusQualifies e = true →
        nlookup nested (keyParts s.id) = some ((pyget e "text").getD "")) ∧
      (∀ p v, nlookup nested p = some v →
        ∃ name sec s e, (name, sec) ∈ source_sections ∧
          pyStarts name "gear_optimizer/" = true ∧ s ∈ sec.strings ∧
          pyget translations s.id = some e ∧ statusQualifies e = true ∧
          p = keyParts s.id ∧ v = (pyget e "text").getD "") := by
  obtain ⟨j', h1, h2, h3⟩ :=
    foldInsert_spec (exportWrites source_sections translations) [] []
      (fun p v h => by rw [nlookup_obj_nil] at h; cases h)
      (fun d hd => by cases hd)
      hinc hne
  refine ⟨j', h1, ?_, ?_⟩
  · intro name sec s e hmem hs hsmem he hq
    have hw : (keyParts s.id, (pyget e "text").getD "") ∈
        exportWrites source_sections translations :=
      (mem_exportWrites _ _ _).mpr ⟨name, sec, s, e, hmem, hs, hsmem, he, hq, rfl⟩
    exact h2 _ hw
  · intro p v hp
    have hmem := (h3 p v hp).resolve_left (fun hin => by cases hin)
    obtain ⟨name, sec, s, e, h4, h5, h6, h7, h8, hxeq⟩ :=
      (mem_exportWrites _ _ _).mp hmem
    rw [Prod.mk.injEq] at hxeq
    exact ⟨name, sec, s, e, h4, h5, h6, h7, h8, hxeq.1, hxeq.2⟩

/-- Witness for the amended C5 at a concrete catalog with two qualifying
entries at distinct key paths and one below-threshold entry. -/
theorem c5_amended_witness :
    pairwiseIncompB ((exportWrites
      [("gear_optimizer/a", { strings := [⟨"x.b.0", "A", 1, "h1", none⟩,
        ⟨"y.c.1", "B", 1, "h2", none⟩, ⟨"z.d.2", "C", 1, "h3", none⟩] })]
      [("x.b.0", [("text", "T1"), ("status", "approved")]),
       ("y.c.1", [("text", "T2"), ("status", "draft")]),
       ("z.d.2", [("text", "T3"), ("status", "needs_review")])]).map Prod.fst)
      = true ∧
    (∀ w ∈ exportWrites
      [("gear_optimizer/a", { strings := [⟨"x.b.0", "A", 1, "h1", none⟩,
        ⟨"y.c.1", "B", 1, "h2", none⟩, ⟨"z.d.2", "C", 1, "h3", none⟩] })]
      [("x.b.0", [("text", "T1"), ("status", "approved")]),
       ("y.c.1", [("text", "T2"), ("status", "draft")]),
       ("z.d.2", [("text", "T3"), ("status", "needs_review")])], w.1 ≠ []) ∧
    (∃ nested, export_gear_optimizer
      [("gear_optimizer/a", { strings := [⟨"x.b.0", "A", 1, "h1", none⟩,
        ⟨"y.c.1", "B", 1, "h2", none⟩, ⟨"z.d.2", "C", 1, "h3", none⟩] })]
      [("x.b.0", [("text", "T1"), ("status", "approved")]),
       ("y.c.1", [("text", "T2"), ("status", "draft")]),
       ("z.d.2", [("text", "T3"), ("status", "needs_review")])] = some nested ∧
      (∀ (name : String) (sec : Section) (s : CatRecord) (e : EntryDict),
        (name, sec) ∈
          [("gear_optimizer/a", { strings := [⟨"x.b.0", "A", 1, "h1", none⟩,
            ⟨"y.c.1", "B", 1, "h2", none⟩,
            ⟨"z.d.2", "C", 1, "h3", none⟩] })] →
        pyStarts name "gear_optimizer/" = true → s ∈ sec.strings →
        pyget [("x.b.0", [("text", "T1"), ("status", "approved")]),
          ("y.c.1", [("text", "T2"), ("status", "draft")]),
          ("z.d.2", [("text", "T3"), ("status", "needs_review")])] s.id = some e →
        statusQualifies e = true →
        nlookup nested (keyParts s.id) = some ((pyget e "text").getD "")) ∧
      (∀ p v, nlookup nested p = some v →
        ∃ (name : String) (sec : Section) (s : CatRecord) (e : EntryDict),
          (name, sec) ∈
          [("gear_optimizer/a", { strings := [⟨"x.b.0", "A", 1, "h1", none⟩,
            ⟨"y.c.1", "B", 1, "h2", none⟩,
            ⟨"z.d.2", "C", 1, "h3", none⟩] })] ∧
          pyStarts name "gear_optimizer/" = true ∧ s ∈ sec.strings ∧
          pyget [("x.b.0", [("text", "T1"), ("status", "approved")]),
            ("y.c.1", [("text", "T2"), ("status", "draft")]),
            ("z.d.2", [("text", "T3"), ("status", "needs_review")])] s.id
            = some e ∧
          statusQualifies e = true ∧ p = keyParts s.id ∧
          v = (pyget e "text").getD "")) :=
  ⟨by decide, by decide,
    c5_amended_export_roundtrip
      [("gear_optimizer/a", { strings := [⟨"x.b.0", "A", 1, "h1", none⟩,
        ⟨"y.c.1", "B", 1, "h2", none⟩, ⟨"z.d.2", "C", 1, "h3", none⟩] })]
      [("x.b.0", [("text", "T1"), ("status", "approved")]),
       ("y.c.1", [("text", "T2"), ("status", "draft")]),
       ("z.d.2", [("text", "T3"), ("status", "needs_review")])]
      (by decide) (by decide)⟩
